import Mathlib

/-!
Verification of the aggregation-and-cache core of the Pomogaika wine backend.

The Lean definitions below are a shallow embedding of the Python sources:
* `src/wine_parser.py` — source adapters (`ConsumParser`, `MercadonaParser`,
  `MasymasParser`, `DIAParser`) and the `WineAggregator`;
* `src/main.py` — the cache (`get_wines` / `fetch_wines_sync`), the scorer
  (`score_wine`), the store-diverse selector (`_diverse_selection`), the price
  filters of `/recommend` and `/search`, and the expert-note tables.

Python floats are modelled as rationals (the operations involved — comparisons,
truthiness tests and exact divisions at the concrete inputs considered — do not
depend on binary rounding), Python `int(x)` as truncation toward zero, Python
`Optional` as `Option`, and Python string operations (`.lower()`, `in`) as the
corresponding functions on Lean strings.
-/

namespace Pomogaika

/-- Python `int(q)` on a real value: truncation toward zero
(floor for non-negative values, ceiling for negative ones). -/
def pyInt (q : ℚ) : ℤ := if 0 ≤ q then ⌊q⌋ else ⌈q⌉

/-- `isPrefixL n l` : `n` is a prefix of `l` (Char lists, used for substring tests). -/
def isPrefixL : List Char → List Char → Bool
  | [], _ => true
  | _ :: _, [] => false
  | a :: as, b :: bs => a == b && isPrefixL as bs

/-- `hasSub n l` : `n` occurs as a contiguous sublist of `l`. -/
def hasSub (n : List Char) : List Char → Bool
  | [] => n.isEmpty
  | b :: bs => isPrefixL n (b :: bs) || hasSub n bs

/-- Python `needle in haystack` on strings: substring containment. -/
def pyIn (needle haystack : String) : Bool := hasSub needle.toList haystack.toList

/-- Python `s.lower()`: `Char.toLower` applied to every character (spelled out
over the character list rather than as `String.map`). -/
def pyLower (s : String) : String := ⟨s.data.map Char.toLower⟩

/-- Canonical wine record produced by the source adapters
(`@dataclass Wine`, src/wine_parser.py lines 28-43). -/
structure Wine where
  id : String
  name : String
  brand : String
  price : ℚ
  price_per_liter : ℚ
  store : String
  url : String
  image_url : Option String
  ean : Option String
  region : Option String
  wine_type : Option String
  discount_price : Option ℚ
  discount_percent : Option ℤ
deriving DecidableEq, Repr

/-- API-layer wine record (`class WineResponse`, src/main.py lines 69-84):
the parser fields plus the response-only `match_score` and `expert_note`. -/
structure WineResponse where
  id : String
  name : String
  brand : String
  price : ℚ
  price_per_liter : ℚ
  store : String
  url : String
  image_url : Option String
  ean : Option String
  region : Option String
  wine_type : Option String
  discount_price : Option ℚ
  discount_percent : Option ℤ
  match_score : Option ℤ
  expert_note : Option String
deriving DecidableEq, Repr

/-- Sommelier recommendation record (`@dataclass WineRecommendation`,
src/sommelier.py lines 44-53; the `style` enum value is kept as its string). -/
structure WineRecommendation where
  style : String
  grape_varieties : List String
  regions : List String
  wine_type : String
  description : String
  rec_priority : ℤ
deriving DecidableEq, Repr

/-! ### Adapter discount computations (src/wine_parser.py) -/

/-- `ConsumParser._parse_product`, lines 229-238: given the parsed regular
`price` and the first offer's price (`none` when there is no offer dict),
returns the `(discount_price, discount_percent)` pair.  The percentage is
computed whenever `price > 0 and discount_price > 0`, with no check that the
offer price is below the regular price. -/
def consumDiscount (price : ℚ) (offerPrice : Option ℚ) : Option ℚ × Option ℤ :=
  match offerPrice with
  | none => (none, none)
  | some dp =>
      (some dp,
       if 0 < price ∧ 0 < dp then some (pyInt ((1 - dp / price) * 100)) else none)

/-- `MercadonaParser._parse_hit`, lines 392-398: when `previous_unit_price` is
truthy, the current unit price becomes the discount price, the previous price
becomes the regular price, and the percentage is computed with no check that
the previous price is the larger one.  Returns
`(price, discount_price, discount_percent)`. -/
def mercadonaDiscount (unitPrice : ℚ) (previousPrice : Option ℚ) :
    ℚ × Option ℚ × Option ℤ :=
  match previousPrice with
  | none => (unitPrice, none, none)
  | some prev =>
      if prev == 0 then (unitPrice, none, none)
      else (prev, some unitPrice, some (pyInt ((1 - unitPrice / prev) * 100)))

/-- `MasymasParser._parse_product`, lines 558-566: the offer price comes from
the `OFFER_PRICE` entry; the percentage is computed only when
`discount_price and discount_price > 0 and price > discount_price`. -/
def masymasDiscount (price : ℚ) (offerPrice : Option ℚ) : Option ℤ :=
  match offerPrice with
  | none => none
  | some dp =>
      if ¬ dp == 0 ∧ 0 < dp ∧ dp < price
      then some (pyInt ((1 - dp / price) * 100)) else none

/-- The discount rule as the amended claim words it for Consum: the percentage
is the integer truncation of `(1 - discounted/regular) * 100`, defined whenever
`regular > 0` and the offer price is `> 0` — even when the offer price is not
below the regular price. -/
def consumDiscountSpec (price dp : ℚ) : Option ℤ :=
  if 0 < price ∧ 0 < dp then some (pyInt ((1 - dp / price) * 100)) else none

/-- The discount rule as the amended claim words it for Masymas: same formula,
but defined only when `regular > discounted > 0`. -/
def masymasDiscountSpec (price dp : ℚ) : Option ℤ :=
  if 0 < dp ∧ dp < price then some (pyInt ((1 - dp / price) * 100)) else none

/-! ### Price filter of `/recommend` and `/search` (src/main.py lines 284 and 743) -/

/-- Python `wine.discount_price or wine.price`: the discount price when it is
present and truthy (non-zero), the regular price otherwise. -/
def effPrice (w : WineResponse) : ℚ :=
  match w.discount_price with
  | some d => if d == 0 then w.price else d
  | none => w.price

/-- The price-range test `min_price <= (w.discount_price or w.price) <= max_price`
shared by `recommend_wines` (line 284) and `search_wines` (line 743). -/
def pricePass (minP maxP : ℚ) (w : WineResponse) : Bool :=
  decide (minP ≤ effPrice w) && decide (effPrice w ≤ maxP)

/-- The price filter step of `search_wines` (src/main.py line 743). -/
def search_price_filter (minP maxP : ℚ) (ws : List WineResponse) : List WineResponse :=
  ws.filter (pricePass minP maxP)

/-- Steps 3-4 of `recommend_wines` (src/main.py lines 281-284): filter by wine
type, then by price range. -/
def recommend_filtered (rec : WineRecommendation) (minP maxP : ℚ)
    (ws : List WineResponse) : List WineResponse :=
  (ws.filter (fun w => w.wine_type == some rec.wine_type)).filter (pricePass minP maxP)

/-- The price-range predicate as the claim words it: the discounted price is
tested whenever one is present (even a zero one), the regular price otherwise. -/
def priceInRangeClaim (minP maxP : ℚ) (w : WineResponse) : Prop :=
  minP ≤ (match w.discount_price with | some d => d | none => w.price)
  ∧ (match w.discount_price with | some d => d | none => w.price) ≤ maxP

/-- The price-range predicate as the amended claim words it: the discounted
price is tested when a non-zero one is present, the regular price otherwise. -/
def priceInRangeAmended (minP maxP : ℚ) (w : WineResponse) : Prop :=
  match w.discount_price with
  | some d => if d ≠ 0 then minP ≤ d ∧ d ≤ maxP else minP ≤ w.price ∧ w.price ≤ maxP
  | none => minP ≤ w.price ∧ w.price ≤ maxP

/-! ### Scorer (`score_wine` inside `recommend_wines`, src/main.py lines 287-311) -/

/-- The `+20` condition: `wine.region` is truthy and some preferred region is a
case-insensitive substring of it (src/main.py lines 290-294). -/
def regionMatchB (rec : WineRecommendation) (w : WineResponse) : Bool :=
  match w.region with
  | none => false
  | some r => !(r == "") && rec.regions.any (fun region => pyIn (pyLower region) (pyLower r))

/-- The `+15` condition: some preferred grape is a case-insensitive substring of
the wine name (src/main.py lines 297-301). -/
def grapeMatchB (rec : WineRecommendation) (w : WineResponse) : Bool :=
  rec.grape_varieties.any (fun grape => pyIn (pyLower grape) (pyLower w.name))

/-- The `+10` condition `if wine.discount_price:` — Python truthiness, so a
present-but-zero discount price does not count (src/main.py lines 304-305). -/
def discountTruthy (w : WineResponse) : Bool :=
  match w.discount_price with
  | some d => !(d == 0)
  | none => false

/-- The `+5` condition `if wine.region:` — truthiness again (lines 308-309). -/
def regionTruthy (w : WineResponse) : Bool :=
  match w.region with
  | some r => !(r == "")
  | none => false

/-- `score_wine` (src/main.py lines 287-311): base 50, the four additive
bonuses, and the final `min(score, 100)` clamp. -/
def score_wine (rec : WineRecommendation) (w : WineResponse) : ℤ :=
  min (50 + (if regionMatchB rec w then 20 else 0) + (if grapeMatchB rec w then 15 else 0)
    + (if discountTruthy w then 10 else 0) + (if regionTruthy w then 5 else 0)) 100

/-- The score as the claim words it: `+20` whenever the region tag (possibly
empty) contains a preferred region, `+10` whenever a discounted price is
present (even a zero one). -/
def score_spec_claim (rec : WineRecommendation) (w : WineResponse) : ℤ :=
  min (50
    + (if (match w.region with
           | some r => rec.regions.any (fun g => pyIn (pyLower g) (pyLower r))
           | none => false) then 20 else 0)
    + (if grapeMatchB rec w then 15 else 0)
    + (if w.discount_price.isSome then 10 else 0)
    + (if regionTruthy w then 5 else 0)) 100

/-- The score as the amended claim words it: `+20` requires a non-empty region
tag containing a preferred region, `+10` requires a non-zero discounted price. -/
def score_spec_amended (rec : WineRecommendation) (w : WineResponse) : ℤ :=
  let regionBonus : ℤ :=
    match w.region with
    | some r => if r ≠ "" ∧ rec.regions.any (fun g => pyIn (pyLower g) (pyLower r)) then 20 else 0
    | none => 0
  let grapeBonus : ℤ :=
    if rec.grape_varieties.any (fun g => pyIn (pyLower g) (pyLower w.name)) then 15 else 0
  let discountBonus : ℤ :=
    match w.discount_price with
    | some d => if d ≠ 0 then 10 else 0
    | none => 0
  let qualityBonus : ℤ :=
    match w.region with
    | some r => if r ≠ "" then 5 else 0
    | none => 0
  min (50 + regionBonus + grapeBonus + discountBonus + qualityBonus) 100

/-! ### Aggregator and identifier dedup (src/wine_parser.py 866-898, src/main.py 108-133) -/

/-- The `seen_ids` fold shared by the dedup loops: keep an element iff its key
is not in `seen`, adding kept keys to `seen` as the list is traversed. -/
def dedupFrom {α : Type} (key : α → String) : List String → List α → List α
  | _, [] => []
  | seen, w :: ws =>
      if key w ∈ seen then dedupFrom key seen ws
      else w :: dedupFrom key (key w :: seen) ws

/-- Dedup by key starting from an empty seen-set: first occurrence wins,
discovery order preserved. -/
def dedupByKey {α : Type} (key : α → String) (l : List α) : List α := dedupFrom key [] l

/-- The seen-set accumulated by `dedupFrom` after traversing a list. -/
def seenAfter {α : Type} (key : α → String) : List String → List α → List String
  | seen, [] => seen
  | seen, w :: ws =>
      if key w ∈ seen then seenAfter key seen ws else seenAfter key (key w :: seen) ws

/-- `WineAggregator.search_all` (src/wine_parser.py lines 878-898): plain
concatenation of the four per-store adapter results, in fixed store order —
no dedup is performed at this level. -/
def search_all (consumW mercadonaW masymasW diaW : List Wine) : List Wine :=
  consumW ++ mercadonaW ++ masymasW ++ diaW

/-- Modelled from the spec: `WineAggregator.search_all_types` is called by
`fetch_wines_sync` (src/main.py line 116) but is not present in
`src/wine_parser.py`; per spec §4.2 the Aggregator unions all successful
adapter results (one list per adapter/category pair, in discovery order) and
"deduplicates by identifier (`source_id`), first occurrence wins, preserving
discovery order". -/
def search_all_types (typeResults : List (List Wine)) : List Wine :=
  dedupByKey (fun w => w.id) typeResults.flatten

/-- `fetch_wines_sync` (src/main.py lines 108-133): the standard search result,
then the premium result (`search_premium`, also absent from the source, modelled
as an arbitrary list) merged in by the explicit `seen_ids` loop of lines
125-129 — premium wines whose id is already present are dropped. -/
def fetch_wines_sync (typeResults : List (List Wine)) (premium : List Wine) : List Wine :=
  search_all_types typeResults
    ++ dedupFrom (fun w => w.id)
        ((search_all_types typeResults).map (fun w => w.id)) premium

/-! ### Store-diverse selector (`_diverse_selection`, src/main.py lines 332-368) -/

/-- The sort key `w.match_score or 0` (src/main.py lines 335, 345, 359, 367). -/
def scoreKey (w : WineResponse) : ℤ := w.match_score.getD 0

/-- The descending-score order used by every `sort(..., reverse=True)` call of
the selector; ties are related both ways, so a stable sort under this relation
keeps tied items in input order, exactly as Python's stable sort does. -/
def scoreGE (a b : WineResponse) : Prop := scoreKey b ≤ scoreKey a

instance : DecidableRel scoreGE := fun a b => Int.decLe _ _

instance : IsTotal WineResponse scoreGE := ⟨fun a b => le_total (scoreKey b) (scoreKey a)⟩

instance : IsTrans WineResponse scoreGE := ⟨fun a b c h1 h2 => le_trans h2 h1⟩

/-- Python's `list.sort(key=..., reverse=True)`: a stable descending sort.
Stable sorts under a fixed total preorder are unique, so insertion sort with
the ties-both-ways relation `scoreGE` computes the same list. -/
def sortScore (l : List WineResponse) : List WineResponse := l.insertionSort scoreGE

/-- One step of collecting `by_store` keys in first-insertion order. -/
def addStore (acc : List String) (s : String) : List String :=
  if s ∈ acc then acc else acc ++ [s]

/-- The keys of the `by_store` dictionary (src/main.py lines 339-341), in
first-occurrence order, as Python dict iteration yields them. -/
def storesOf (ws : List WineResponse) : List String :=
  ws.foldl (fun acc w => addStore acc w.store) []

/-- The `by_store[s]` partition: the wines of store `s` in input order. -/
def storeGroup (ws : List WineResponse) (s : String) : List WineResponse :=
  ws.filter (fun w => w.store == s)

/-- Phase 1 of `_diverse_selection` (src/main.py lines 347-355): for each store
in dict order, the top `k` of its score-sorted partition, collected with the
`selected_ids` dedup. -/
def phase1_selection (ws : List WineResponse) (k : ℕ) : List WineResponse :=
  dedupByKey (fun w => w.id)
    (((storesOf ws).map (fun s => (sortScore (storeGroup ws s)).take k)).flatten)

/-- The `remaining` list of phase 2 (src/main.py line 358): input-order wines
whose id was not selected in phase 1. -/
def remaining_after (ws : List WineResponse) (k : ℕ) : List WineResponse :=
  ws.filter (fun w => !(((phase1_selection ws k).map (fun x => x.id)).contains w.id))

/-- `_diverse_selection(wines, limit, min_per_store=k)` (src/main.py lines
332-368).  Small inputs are returned whole, score-sorted; otherwise phase 1 is
extended by the first `limit - |phase 1|` of the score-sorted remaining wines
(none when phase 1 already reached `limit` — the loop breaks immediately), and
the final list is re-sorted by score. -/
def diverse_selection (ws : List WineResponse) (limit k : ℕ) : List WineResponse :=
  if ws.length ≤ limit then sortScore ws
  else
    sortScore (phase1_selection ws k
      ++ (sortScore (remaining_after ws k)).take (limit - (phase1_selection ws k).length))

/-! ### Cache Manager (`wine_cache` / `get_wines`, src/main.py lines 36-40 and 136-191) -/

/-- The module-level `wine_cache` dictionary: item set, last-refresh timestamp
(`None` before the first successful refresh), in-flight flag. -/
structure CacheState where
  wines : List WineResponse
  last_update : Option ℚ
  is_loading : Bool
deriving DecidableEq, Repr

/-- The field-by-field `ParserWine → WineResponse` conversion inside `get_wines`
(src/main.py lines 160-175); `match_score` and `expert_note` start unset. -/
def toResponse (pw : Wine) : WineResponse :=
  { id := pw.id, name := pw.name, brand := pw.brand, price := pw.price,
    price_per_liter := pw.price_per_liter, store := pw.store, url := pw.url,
    image_url := pw.image_url, ean := pw.ean, region := pw.region,
    wine_type := pw.wine_type, discount_price := pw.discount_price,
    discount_percent := pw.discount_percent,
    match_score := none, expert_note := none }

/-- The freshness test of `get_wines` (src/main.py lines 141-144): the cached
list is non-empty, `last_update` is truthy (set and non-zero), and the age is
below the 1800-second TTL. -/
def cacheFresh (st : CacheState) (now : ℚ) : Bool :=
  !st.wines.isEmpty &&
    (match st.last_update with
     | some t => !(t == 0) && decide (now - t < 1800)
     | none => false)

/-- `get_wines` (src/main.py lines 136-191) as a state transition.  `now` is the
`time.time()` of the freshness check, `nowAfter` the one taken when the cache is
updated after the fetch, and `fetchResult` the outcome of running
`fetch_wines_sync` in the executor (`.error` when it raises).  Returns the list
handed to the caller together with the post-call cache state.
Branches, in source order: fresh cache → early return; `is_loading` set →
return current cache unchanged; otherwise run the fetch with the in-flight flag
set, replace the cache wholesale on success, keep the previous item set (or
return `[]` when there is none — which equals `st.wines` in that case) on
failure, and clear the in-flight flag on both paths (`finally`). -/
def get_wines (now nowAfter : ℚ) (fetchResult : Except Unit (List Wine))
    (st : CacheState) : List WineResponse × CacheState :=
  if cacheFresh st now then (st.wines, st)
  else if st.is_loading then (st.wines, st)
  else
    match fetchResult with
    | .ok pws =>
        let wines := pws.map toResponse
        (wines, { wines := wines, last_update := some nowAfter, is_loading := false })
    | .error _ =>
        (st.wines, { st with is_loading := false })

/-! ### Expert notes and the `/recommend` score mutation (src/main.py lines 287-316, 600-702) -/

/-- `REGION_NOTES` (src/main.py lines 600-664): per-region localized tasting
notes, in source order (first matching key wins). -/
def REGION_NOTES : List (String × List (String × String)) :=
  [("Rioja",
    [("ru", "Классическая Риоха — баланс фруктов, дуба и элегантности"),
     ("uk", "Класична Ріоха — баланс фруктів, дуба та елегантності"),
     ("be", "Класічная Рыёха — баланс фруктаў, дуба і элегантнасці"),
     ("en", "Classic Rioja — balance of fruit, oak and elegance"),
     ("es", "Rioja clásica — equilibrio de fruta, roble y elegancia")]),
   ("Ribera",
    [("ru", "Мощная Рибера дель Дуэро — интенсивность и глубина"),
     ("uk", "Потужна Рібера дель Дуеро — інтенсивність і глибина"),
     ("be", "Магутная Рыбера дэль Дуэра — інтэнсіўнасць і глыбіня"),
     ("en", "Powerful Ribera del Duero — intensity and depth"),
     ("es", "Ribera del Duero — intensidad y profundidad")]),
   ("Rías Baixas",
    [("ru", "Альбариньо из Галисии — минеральность и свежесть океана"),
     ("uk", "Альбаріньо з Галісії — мінеральність і свіжість океану"),
     ("be", "Альбарыньё з Галісіі — мінеральнасць і свежасць акіяна"),
     ("en", "Albariño from Galicia — ocean minerality and freshness"),
     ("es", "Albariño de Galicia — mineralidad y frescura del océano")]),
   ("Rueda",
    [("ru", "Свежий Вердехо — травы, цитрусы, хрустящая кислотность"),
     ("uk", "Свіжий Вердехо — трави, цитруси, хрустка кислотність"),
     ("be", "Свежы Вердэхо — травы, цытрусы, храсткая кіслотнасць"),
     ("en", "Fresh Verdejo — herbs, citrus, crisp acidity"),
     ("es", "Verdejo fresco — hierbas, cítricos, acidez crujiente")]),
   ("Priorat",
    [("ru", "Приорат — мощь и концентрация"),
     ("uk", "Пріорат — потужність і концентрація"),
     ("be", "Прыярат — магутнасць і канцэнтрацыя"),
     ("en", "Priorat — power and concentration"),
     ("es", "Priorat — potencia y concentración")]),
   ("Jumilla",
    [("ru", "Насыщенный Монастрель — чернослив, шоколад, специи"),
     ("uk", "Насичений Монастрель — чорнослив, шоколад, спеції"),
     ("be", "Насычаны Манастрэль — чарнаслівы, шакалад, спецыі"),
     ("en", "Rich Monastrell — prune, chocolate, spice"),
     ("es", "Monastrell intenso — ciruela, chocolate, especias")]),
   ("Bierzo",
    [("ru", "Элегантная Менсия — испанский ответ Пино Нуар"),
     ("uk", "Елегантна Менсія — іспанська відповідь Піно Нуар"),
     ("be", "Элегантная Менсія — іспанскі адказ Піно Нуар"),
     ("en", "Elegant Mencía — Spain's answer to Pinot Noir"),
     ("es", "Mencía elegante — la respuesta española al Pinot Noir")]),
   ("Navarra",
    [("ru", "Наварра — столица розовых вин"),
     ("uk", "Наварра — столиця рожевих вин"),
     ("be", "Навара — сталіца ружовых він"),
     ("en", "Navarra — capital of rosé wines"),
     ("es", "Navarra — capital del vino rosado")]),
   ("Penedès",
    [("ru", "Пенедес — родина испанской Кавы"),
     ("uk", "Пенедес — батьківщина іспанської Кави"),
     ("be", "Пенедэс — радзіма іспанскай Кавы"),
     ("en", "Penedès — home of Spanish Cava"),
     ("es", "Penedès — cuna del Cava español")])]

/-- `WINE_TYPE_NOTES` (src/main.py lines 666-674). -/
def WINE_TYPE_NOTES : List (String × List (String × String)) :=
  [("cava",
    [("ru", "Испанское игристое методом шампанского — праздник в бокале"),
     ("uk", "Іспанське ігристе методом шампанського — свято в келиху"),
     ("be", "Іспанскае ігрыстае метадам шампанскага — свята ў келіху"),
     ("en", "Spanish sparkling, Champagne method — celebration in a glass"),
     ("es", "Espumoso español método champenoise — celebración en copa")])]

/-- `DEFAULT_NOTE` (src/main.py lines 676-682). -/
def DEFAULT_NOTE : List (String × String) :=
  [("ru", "Отличный выбор для вашего блюда"),
   ("uk", "Чудовий вибір для вашої страви"),
   ("be", "Выдатны выбар для вашай стравы"),
   ("en", "Excellent choice for your dish"),
   ("es", "Excelente elección para tu plato")]

/-- Python `translations.get(lang, translations.get("en", ""))`. -/
def dictGet (d : List (String × String)) (lang : String) : String :=
  match d.lookup lang with
  | some v => v
  | none => match d.lookup "en" with
            | some v => v
            | none => ""

/-- The wine-type / default fallback of `get_expert_note`
(src/main.py lines 699-702). -/
def noteFromType (w : WineResponse) (lang : String) : String :=
  match w.wine_type with
  | some t =>
      if t == "" then dictGet DEFAULT_NOTE lang
      else
        match WINE_TYPE_NOTES.lookup t with
        | some d => dictGet d lang
        | none => dictGet DEFAULT_NOTE lang
  | none => dictGet DEFAULT_NOTE lang

/-- `get_expert_note` (src/main.py lines 692-702): first matching `REGION_NOTES`
key contained in the (truthy) region tag, else the wine-type note, else the
default note.  The `rec` argument is unused, as in the source. -/
def get_expert_note (w : WineResponse) (rec : WineRecommendation) (lang : String) : String :=
  match w.region with
  | some r =>
      if r == "" then noteFromType w lang
      else
        match REGION_NOTES.find? (fun kv => pyIn kv.1 r) with
        | some kv => dictGet kv.2 lang
        | none => noteFromType w lang
  | none => noteFromType w lang

/-- Membership in the `filtered` list of `recommend_wines` (lines 281-284):
the wine-type filter and the price filter combined. -/
def recommendPass (rec : WineRecommendation) (minP maxP : ℚ) (w : WineResponse) : Bool :=
  (w.wine_type == some rec.wine_type) && pricePass minP maxP w

/-- The effect of steps 5-6 of `recommend_wines` (src/main.py lines 287-316) on
the cached item list: `wine.match_score = score_wine(wine)` and
`wine.expert_note = get_expert_note(wine, primary_rec, lang)` are written into
the cached objects that passed the filters (the `filtered` list holds references
into the cache); all other cached items are untouched. -/
def recommend_apply_scores (rec : WineRecommendation) (minP maxP : ℚ) (lang : String)
    (cache : List WineResponse) : List WineResponse :=
  cache.map (fun w =>
    if recommendPass rec minP maxP w then
      { w with match_score := some (score_wine rec w),
               expert_note := some (get_expert_note w rec lang) }
    else w)

/-- A concrete wine record used to instantiate theorems at explicit inputs. -/
def wBase : WineResponse :=
  { id := "consum_1", name := "Vino Tinto", brand := "", price := 10,
    price_per_liter := 10, store := "consum", url := "", image_url := none,
    ean := none, region := none, wine_type := some "tinto",
    discount_price := none, discount_percent := none,
    match_score := none, expert_note := none }

/-- A concrete sommelier recommendation used to instantiate theorems. -/
def recBase : WineRecommendation :=
  { style := "red_medium", grape_varieties := [], regions := [],
    wine_type := "tinto", description := "Fresh white wine for fish",
    rec_priority := 1 }

/-- A concrete wine with the given id, store and match score, for selector
instances. -/
def wIt (i s : String) (sc : ℤ) : WineResponse :=
  { wBase with id := i, store := s, match_score := some sc }

/-- Six wines over two stores in which the id `"x"` occurs in both stores. -/
def wsDup : List WineResponse :=
  [wIt "x" "a" 90, wIt "y" "a" 85, wIt "z" "a" 80,
   wIt "x" "b" 70, wIt "d" "b" 60, wIt "e" "b" 50]

/-- Six wines over two stores with pairwise-distinct ids. -/
def wsSix : List WineResponse :=
  [wIt "a1" "a" 90, wIt "a2" "a" 85, wIt "a3" "a" 80,
   wIt "b1" "b" 70, wIt "b2" "b" 60, wIt "b3" "b" 50]

/-- Two wines, listed in ascending score order. -/
def wsTwo : List WineResponse := [wIt "a1" "a" 40, wIt "a2" "a" 90]

/-! ### Lemmas about the seen-set dedup fold -/

theorem dedupFrom_sublist {α : Type} (key : α → String) (seen : List String)
    (l : List α) : List.Sublist (dedupFrom key seen l) l := by
  induction l generalizing seen with
  | nil => simp [dedupFrom]
  | cons w ws ih =>
      simp only [dedupFrom]
      split
      · exact (ih _).cons _
      · exact (ih _).cons₂ _

theorem mem_key_dedupFrom {α : Type} (key : α → String) (seen : List String)
    (l : List α) (i : String) :
    i ∈ (dedupFrom key seen l).map key ↔ i ∉ seen ∧ i ∈ l.map key := by
  induction l generalizing seen with
  | nil => simp [dedupFrom]
  | cons w ws ih =>
      simp only [dedupFrom]
      by_cases hw : key w ∈ seen
      · rw [if_pos hw, ih]
        simp only [List.map_cons, List.mem_cons]
        constructor
        · rintro ⟨h1, h2⟩
          exact ⟨h1, Or.inr h2⟩
        · rintro ⟨h1, h2 | h2⟩
          · exact absurd (h2 ▸ hw) h1
          · exact ⟨h1, h2⟩
      · rw [if_neg hw]
        simp only [List.map_cons, List.mem_cons, ih, List.mem_cons]
        constructor
        · rintro (rfl | ⟨h1, h2⟩)
          · exact ⟨hw, Or.inl rfl⟩
          · exact ⟨fun hs => h1 (Or.inr hs), Or.inr h2⟩
        · rintro ⟨h1, rfl | h2⟩
          · exact Or.inl rfl
          · by_cases hik : i = key w
            · exact Or.inl hik
            · exact Or.inr ⟨fun hs => hs.elim hik h1, h2⟩

theorem dedupFrom_key_nodup {α : Type} (key : α → String) (seen : List String)
    (l : List α) : ((dedupFrom key seen l).map key).Nodup := by
  induction l generalizing seen with
  | nil => simp [dedupFrom]
  | cons w ws ih =>
      simp only [dedupFrom]
      split
      · exact ih _
      · simp only [List.map_cons, List.nodup_cons]
        refine ⟨?_, ih _⟩
        rw [mem_key_dedupFrom]
        rintro ⟨hns, -⟩
        exact hns (List.mem_cons_self _ _)

theorem dedupFrom_filter {α : Type} (key : α → String) (seen : List String)
    (l : List α) (i : String) :
    (dedupFrom key seen l).filter (fun a => key a == i)
      = if i ∈ seen then [] else (l.filter (fun a => key a == i)).take 1 := by
  induction l generalizing seen with
  | nil => simp [dedupFrom]
  | cons w ws ih =>
      simp only [dedupFrom]
      by_cases hw : key w ∈ seen
      · rw [if_pos hw, ih]
        by_cases hi : i ∈ seen
        · rw [if_pos hi, if_pos hi]
        · rw [if_neg hi, if_neg hi, List.filter_cons,
            if_neg (by simp; rintro rfl; exact hi hw)]
      · rw [if_neg hw, List.filter_cons]
        by_cases hkey : key w = i
        · rw [if_pos (by simp [hkey]), ih,
            if_pos (by rw [← hkey]; exact List.mem_cons_self _ _),
            if_neg (hkey ▸ hw), List.filter_cons, if_pos (by simp [hkey])]
          simp
        · rw [if_neg (by simp [hkey]), ih]
          by_cases hi : i ∈ seen
          · rw [if_pos (List.mem_cons_of_mem _ hi), if_pos hi]
          · rw [if_neg (by simp [hi]; exact fun h => hkey h.symm),
              if_neg hi, List.filter_cons, if_neg (by simp [hkey])]

theorem dedupFrom_seen_congr {α : Type} (key : α → String) {s₁ s₂ : List String}
    (h : ∀ i, i ∈ s₁ ↔ i ∈ s₂) (l : List α) :
    dedupFrom key s₁ l = dedupFrom key s₂ l := by
  induction l generalizing s₁ s₂ with
  | nil => rfl
  | cons w ws ih =>
      simp only [dedupFrom]
      by_cases hw : key w ∈ s₁
      · rw [if_pos hw, if_pos ((h _).1 hw), ih h]
      · rw [if_neg hw, if_neg (fun hx => hw ((h _).2 hx))]
        congr 1
        exact ih (fun i => by simp [List.mem_cons, h i])

theorem dedupFrom_append {α : Type} (key : α → String) (seen : List String)
    (A B : List α) :
    dedupFrom key seen (A ++ B)
      = dedupFrom key seen A ++ dedupFrom key (seenAfter key seen A) B := by
  induction A generalizing seen with
  | nil => simp [dedupFrom, seenAfter]
  | cons a A ih =>
      simp only [List.cons_append, dedupFrom, seenAfter]
      split
      · exact ih _
      · simp [ih _]

theorem mem_seenAfter {α : Type} (key : α → String) (seen : List String)
    (A : List α) (i : String) :
    i ∈ seenAfter key seen A ↔ i ∈ seen ∨ i ∈ A.map key := by
  induction A generalizing seen with
  | nil => simp [seenAfter]
  | cons a A ih =>
      simp only [seenAfter]
      by_cases hw : key a ∈ seen
      · rw [if_pos hw, ih]
        simp only [List.map_cons, List.mem_cons]
        constructor
        · rintro (h | h)
          · exact Or.inl h
          · exact Or.inr (Or.inr h)
        · rintro (h | rfl | h)
          · exact Or.inl h
          · exact Or.inl hw
          · exact Or.inr h
      · rw [if_neg hw, ih]
        simp only [List.mem_cons, List.map_cons]
        tauto

theorem dedupFrom_eq_self {α : Type} (key : α → String) :
    ∀ (l : List α) (seen : List String), (l.map key).Nodup →
      (∀ a ∈ l, key a ∉ seen) → dedupFrom key seen l = l := by
  intro l
  induction l with
  | nil => intro seen _ _; rfl
  | cons w ws ih =>
      intro seen hn hd
      simp only [dedupFrom]
      rw [if_neg (hd w (List.mem_cons_self _ _))]
      congr 1
      refine ih _ ((List.nodup_cons.mp (by simpa using hn)).2) ?_
      intro a ha
      simp only [List.mem_cons]
      rintro (hak | has)
      · exact (List.nodup_cons.mp (by simpa using hn)).1
          (hak ▸ List.mem_map_of_mem key ha)
      · exact hd a (List.mem_cons_of_mem _ ha) has

/-- C2: the aggregate output of `fetch_wines_sync` (standard search over all
wine types, modelled from the spec as the first-wins dedup of the adapter
unions, followed by the premium merge of src/main.py lines 125-129) is a
sublist of the full discovery-ordered union; no two of its items share an id;
and for every identifier the surviving item is exactly the first-encountered
instance in the union. -/
theorem aggregator_dedup : ∀ (typeResults : List (List Wine)) (premium : List Wine),
    List.Sublist (fetch_wines_sync typeResults premium) (typeResults.flatten ++ premium)
    ∧ ((fetch_wines_sync typeResults premium).map (fun w => w.id)).Nodup
    ∧ ∀ i : String,
        (fetch_wines_sync typeResults premium).filter (fun w => w.id == i)
          = ((typeResults.flatten ++ premium).filter (fun w => w.id == i)).take 1 := by
  intro rs prem
  have hout : fetch_wines_sync rs prem
      = dedupByKey (fun w => w.id) (rs.flatten ++ prem) := by
    simp only [fetch_wines_sync, search_all_types, dedupByKey]
    rw [dedupFrom_append]
    congr 1
    apply dedupFrom_seen_congr
    intro i
    rw [mem_key_dedupFrom, mem_seenAfter]
    simp
  rw [hout, dedupByKey]
  refine ⟨dedupFrom_sublist _ _ _, dedupFrom_key_nodup _ _ _, fun i => ?_⟩
  rw [dedupFrom_filter]
  rw [if_neg (List.not_mem_nil i)]

/-- C3 counterexample.  The claim fails on the code in two ways: (1) the Consum
adapter computes a discount percentage whenever `price > 0 and discount_price > 0`,
with no `regular > discounted` check — at regular = 10 and offer = 10 it produces
the percentage `0` even though `discounted >= regular`; (2) the computation is
`int(...)` (truncation toward zero), not `round(...)`: at regular = 8,
discounted = 5 the code yields 37 while `round((1 - 5/8) * 100) = round(37.5) = 38`. -/
theorem discount_rule_cex :
    (consumDiscount 10 (some 10)).2 = some 0
    ∧ ¬ ((10 : ℚ) < 10)
    ∧ masymasDiscount 8 (some 5) = some 37
    ∧ round ((1 - (5 : ℚ) / 8) * 100) = 38 := by
  refine ⟨?_, by norm_num, ?_, ?_⟩
  · show (if (0:ℚ) < 10 ∧ (0:ℚ) < 10 then some (pyInt ((1 - (10:ℚ) / 10) * 100)) else none)
      = some 0
    rw [if_pos (by norm_num), pyInt, show ((1 - (10:ℚ) / 10) * 100) = 0 by norm_num]
    norm_num
  · show (if ¬ (5:ℚ) == 0 ∧ (0:ℚ) < 5 ∧ (5:ℚ) < 8
        then some (pyInt ((1 - (5:ℚ) / 8) * 100)) else none) = some 37
    rw [if_pos (by norm_num), pyInt, show ((1 - (5:ℚ) / 8) * 100) = 75 / 2 by norm_num]
    norm_num
  · rw [show ((1 - (5:ℚ) / 8) * 100) = 75 / 2 by norm_num, round_eq]
    norm_num

/-- C3 (amended): in the Consum and Masymas adapters the discount percentage is
`int((1 - discounted/regular) * 100)` — truncation toward zero, not rounding;
Masymas defines it exactly when `regular > discounted > 0`, while Consum defines
it whenever `regular > 0` and the offer price is `> 0`, even when the offer is
not below the regular price; Mercadona defines it whenever a non-zero previous
price is present, even when the previous price is lower; for regular = 10.00 and
discounted = 7.50 both formula-based adapters yield 25. -/
theorem adapter_discount_amended : ∀ price dp : ℚ,
    ((consumDiscount price (some dp)).2 = consumDiscountSpec price dp)
    ∧ ((consumDiscount price (some dp)).2.isSome = decide (0 < price ∧ 0 < dp))
    ∧ (masymasDiscount price (some dp) = masymasDiscountSpec price dp)
    ∧ ((masymasDiscount price (some dp)).isSome = decide (0 < dp ∧ dp < price))
    ∧ ((mercadonaDiscount price (some dp)).2.2
        = if dp = 0 then none else some (pyInt ((1 - price / dp) * 100)))
    ∧ (consumDiscount 10 (some (15 / 2))).2 = some 25
    ∧ masymasDiscount 10 (some (15 / 2)) = some 25 := by
  intro price dp
  have hval : ((1 - (15:ℚ) / 2 / 10) * 100) = 25 := by norm_num
  have hpy : pyInt ((1 - (15:ℚ) / 2 / 10) * 100) = 25 := by
    rw [pyInt, hval]; norm_num
  refine ⟨?_, ?_, ?_, ?_, ?_, ?_, ?_⟩
  · simp only [consumDiscount, consumDiscountSpec]
  · simp only [consumDiscount, consumDiscountSpec]
    by_cases h : 0 < price ∧ 0 < dp
    · rw [if_pos h]; simp [h]
    · rw [if_neg h]; simp [h]
  · simp only [masymasDiscount, masymasDiscountSpec, beq_iff_eq]
    by_cases h : 0 < dp ∧ dp < price
    · rw [if_pos ⟨h.1.ne', h.1, h.2⟩, if_pos h]
    · rw [if_neg, if_neg h]
      rintro ⟨-, h1, h2⟩
      exact h ⟨h1, h2⟩
  · simp only [masymasDiscount, beq_iff_eq]
    by_cases h : 0 < dp ∧ dp < price
    · rw [if_pos ⟨h.1.ne', h.1, h.2⟩]; simp [h]
    · rw [if_neg]
      · simp [h]
      · rintro ⟨-, h1, h2⟩
        exact h ⟨h1, h2⟩
  · simp only [mercadonaDiscount, beq_iff_eq]
    by_cases h : dp = 0
    · rw [if_pos h, if_pos h]
    · rw [if_neg h, if_neg h]
  · show (if (0:ℚ) < 10 ∧ (0:ℚ) < 15 / 2
        then some (pyInt ((1 - (15:ℚ) / 2 / 10) * 100)) else none) = some 25
    rw [if_pos (by norm_num), hpy]
  · show (if ¬ (15:ℚ) / 2 == 0 ∧ (0:ℚ) < 15 / 2 ∧ (15:ℚ) / 2 < 10
        then some (pyInt ((1 - (15:ℚ) / 2 / 10) * 100)) else none) = some 25
    rw [if_pos (by norm_num), hpy]

/-- C4 counterexample.  The claim's reading of the bonuses does not match the
code: at a wine with `region = ""` and `discount_price = 0.0` and a context
preferring the region `""`, the claim's formula gives `50 + 20 + 10 = 80`
(the empty region tag trivially contains the preferred region `""`, and a
discounted price is present), while the code's truthiness guards give `50`. -/
theorem score_claim_cex :
    score_wine { recBase with regions := [""] }
        { wBase with region := some "", discount_price := some 0 } = 50
    ∧ score_spec_claim { recBase with regions := [""] }
        { wBase with region := some "", discount_price := some 0 } = 80 := by
  constructor <;> decide

/-- C4 (amended): the score equals base 50 plus independent additive bonuses —
`+20` if the item's region tag is non-empty and case-insensitively contains some
preferred region (at most once), `+15` if some preferred grape term is a
case-insensitive substring of the item name (at most once), `+10` if the item
has a non-zero discounted price, `+5` if the item has a non-empty region tag —
clamped to 100; consequently `0 <= score <= 100` always holds. -/
theorem score_wine_amended : ∀ (rec : WineRecommendation) (w : WineResponse),
    score_wine rec w = score_spec_amended rec w
    ∧ 0 ≤ score_wine rec w ∧ score_wine rec w ≤ 100 := by
  intro rec w
  have heq : score_wine rec w = score_spec_amended rec w := by
    obtain ⟨i, nm, b, p, ppl, st, u, img, e, region, wt, dprice, dpct, ms, en⟩ := w
    simp only [score_wine, score_spec_amended, regionMatchB, grapeMatchB,
      discountTruthy, regionTruthy]
    rcases region with _ | r <;> rcases dprice with _ | d
    · simp
    · by_cases hd0 : d = 0 <;> simp [hd0]
    · by_cases hrr : r = "" <;>
        by_cases ha : rec.regions.any (fun g => pyIn (pyLower g) (pyLower r)) <;>
        simp [hrr, ha]
    · by_cases hrr : r = "" <;>
        by_cases ha : rec.regions.any (fun g => pyIn (pyLower g) (pyLower r)) <;>
        by_cases hd0 : d = 0 <;>
        simp [hrr, ha, hd0]
  refine ⟨heq, ?_, min_le_right _ _⟩
  rw [score_wine]
  refine le_min ?_ (by norm_num)
  split_ifs <;> norm_num

/-- C10 counterexample.  A wine with regular price 50 and a present-but-zero
discounted price: by the claim the discounted price (0) lies in the range
[0, 30] so the item passes, but the code's `discount_price or price` falls back
to the regular price 50 and excludes it from the `/search` results. -/
theorem price_filter_cex :
    priceInRangeClaim 0 30 { wBase with price := 50, discount_price := some 0 }
    ∧ pricePass 0 30 { wBase with price := 50, discount_price := some 0 } = false
    ∧ search_price_filter 0 30 [{ wBase with price := 50, discount_price := some 0 }] = [] := by
  refine ⟨⟨by decide, by decide⟩, by decide, by decide⟩

/-- C10 (amended): in both the recommend and search operations, the price-range
filter tests the discounted price when a non-zero one is present and the
regular price otherwise: an item passes iff
`min_price <= (non-zero discounted price if present else regular price) <= max_price`,
so an item whose regular price exceeds `max_price` is still included whenever
its non-zero discounted price lies within the range. -/
theorem price_filter_amended : ∀ (rec : WineRecommendation) (minP maxP : ℚ)
    (ws : List WineResponse) (w : WineResponse),
    (w ∈ search_price_filter minP maxP ws ↔ w ∈ ws ∧ priceInRangeAmended minP maxP w)
    ∧ (w ∈ recommend_filtered rec minP maxP ws ↔
        w ∈ ws ∧ w.wine_type = some rec.wine_type ∧ priceInRangeAmended minP maxP w) := by
  intro rec minP maxP ws w
  have hpp : pricePass minP maxP w = true ↔ priceInRangeAmended minP maxP w := by
    simp only [pricePass, priceInRangeAmended, effPrice, Bool.and_eq_true,
      decide_eq_true_eq]
    rcases hd : w.discount_price with _ | d
    · exact Iff.rfl
    · by_cases hd0 : d = 0 <;> simp [hd0]
  constructor
  · simp [search_price_filter, List.mem_filter, hpp]
  · simp only [recommend_filtered, List.mem_filter, hpp, beq_iff_eq, and_assoc]

/-- C7: if a refresh is already in flight (`is_loading` set) when a read
requests the item set, no new refresh is initiated — the read returns the
current (possibly stale or empty) cached item set immediately and the cache
state (item set, timestamp, in-flight flag) is unchanged.  This holds on both
reachable paths: a fresh cache returns early, and otherwise the
`if wine_cache["is_loading"]` guard returns the current cache untouched. -/
theorem get_wines_single_flight (now nowAfter : ℚ)
    (fetchResult : Except Unit (List Wine)) (st : CacheState)
    (h : st.is_loading = true) :
    get_wines now nowAfter fetchResult st = (st.wines, st) := by
  rw [get_wines.eq_def]
  simp [h]

/-- C7 witness: a concrete in-flight cache state served unchanged. -/
theorem get_wines_single_flight_witness :
    ({ wines := [wBase], last_update := none, is_loading := true } : CacheState).is_loading
      = true
    ∧ get_wines 5 6 (.error ())
        { wines := [wBase], last_update := none, is_loading := true }
      = ([wBase], { wines := [wBase], last_update := none, is_loading := true }) :=
  ⟨rfl, get_wines_single_flight 5 6 (.error ()) _ rfl⟩

/-- C8: when a refresh is actually started (cache not fresh, no refresh in
flight), the in-flight flag is `false` after the call on every exit path,
success or failure; and when the aggregator fetch raises, the previous item set
and its timestamp are retained unchanged and the caller receives the previous
item set (the empty list when the cache was never populated, since then
`st.wines = []`). -/
theorem get_wines_refresh_failure (now nowAfter : ℚ)
    (fetchResult : Except Unit (List Wine)) (st : CacheState)
    (hfresh : cacheFresh st now = false) (hload : st.is_loading = false) :
    ((get_wines now nowAfter fetchResult st).2.is_loading = false)
    ∧ (fetchResult = .error () →
        get_wines now nowAfter fetchResult st
          = (st.wines,
             { wines := st.wines, last_update := st.last_update, is_loading := false })) := by
  rw [get_wines.eq_def, if_neg (by simp [hfresh]), if_neg (by simp [hload])]
  constructor
  · cases fetchResult <;> rfl
  · rintro rfl
    rfl

/-- C8 witness: a concrete stale, idle cache state with a failing fetch. -/
theorem get_wines_refresh_failure_witness :
    cacheFresh { wines := [wBase], last_update := none, is_loading := false } 5 = false
    ∧ ({ wines := [wBase], last_update := none, is_loading := false } : CacheState).is_loading
      = false
    ∧ (((get_wines 5 6 (.error ())
          { wines := [wBase], last_update := none, is_loading := false }).2.is_loading = false)
       ∧ ((.error () : Except Unit (List Wine)) = .error () →
          get_wines 5 6 (.error ())
              { wines := [wBase], last_update := none, is_loading := false }
            = ([wBase], { wines := [wBase], last_update := none, is_loading := false }))) :=
  ⟨rfl, rfl, get_wines_refresh_failure 5 6 (.error ()) _ rfl rfl⟩

/-- C1 counterexample.  Serving a recommendation request does mutate the cached
items: with a single cached tinto at price 10 and a context recommending tinto
in range [0, 30], the item's `match_score` and `expert_note` are written in
place, so the cache after the call differs from the cache before it. -/
theorem recommend_mutates_cache_cex :
    recommend_apply_scores recBase 0 30 "en" [wBase] ≠ [wBase] := by decide

/-- C1 (amended): serving a recommendation request mutates the cached items in
place — every cached item that passes the wine-type and price filters gets its
`match_score` and `expert_note` fields overwritten with the score and note
computed from its (unmutated) other fields, while items that do not pass the
filters, and every field other than `match_score` and `expert_note`, are left
unchanged. -/
theorem recommend_mutates_cache_amended : ∀ (rec : WineRecommendation) (minP maxP : ℚ)
    (lang : String) (cache : List WineResponse),
    List.Forall₂ (fun w w' =>
      w'.id = w.id ∧ w'.name = w.name ∧ w'.brand = w.brand ∧ w'.price = w.price
      ∧ w'.price_per_liter = w.price_per_liter ∧ w'.store = w.store ∧ w'.url = w.url
      ∧ w'.image_url = w.image_url ∧ w'.ean = w.ean ∧ w'.region = w.region
      ∧ w'.wine_type = w.wine_type ∧ w'.discount_price = w.discount_price
      ∧ w'.discount_percent = w.discount_percent
      ∧ (recommendPass rec minP maxP w = true →
          w'.match_score = some (score_wine rec w)
          ∧ w'.expert_note = some (get_expert_note w rec lang))
      ∧ (recommendPass rec minP maxP w = false → w' = w))
      cache (recommend_apply_scores rec minP maxP lang cache) := by
  intro rec minP maxP lang cache
  induction cache with
  | nil => exact List.Forall₂.nil
  | cons w ws ih =>
      refine List.Forall₂.cons ?_ ih
      by_cases h : recommendPass rec minP maxP w = true
      · simp [h]
      · simp [h]

/-- C9: when `|items| <= target_count` the selector returns the entire input —
a permutation of it, no item dropped, no diversity constraint applied — ordered
by score descending. -/
theorem selector_completeness (ws : List WineResponse) (limit k : ℕ)
    (h : ws.length ≤ limit) :
    List.Perm (diverse_selection ws limit k) ws
    ∧ List.Sorted scoreGE (diverse_selection ws limit k) := by
  rw [diverse_selection, if_pos h]
  exact ⟨List.perm_insertionSort _ _, List.sorted_insertionSort _ _⟩

/-- C9 witness: a two-item input below the limit, returned whole and sorted. -/
theorem selector_completeness_witness :
    wsTwo.length ≤ 3
    ∧ (List.Perm (diverse_selection wsTwo 3 3) wsTwo
       ∧ List.Sorted scoreGE (diverse_selection wsTwo 3 3)) :=
  ⟨by decide, selector_completeness wsTwo 3 3 (by decide)⟩

/-- C6: when `target_count < #stores * min_per_store` and the phase-1 output
alone reaches `target_count`, phase 2 adds nothing and the selector returns the
full (re-sorted) phase-1 output — its size is `|phase 1|`, not truncated back
to `target_count`. -/
theorem selector_phase1_overflow (ws : List WineResponse) (limit k : ℕ)
    (h1 : limit < ws.length) (h2 : limit < (storesOf ws).length * k)
    (h3 : limit ≤ (phase1_selection ws k).length) :
    diverse_selection ws limit k = sortScore (phase1_selection ws k)
    ∧ (diverse_selection ws limit k).length = (phase1_selection ws k).length := by
  have hni : ¬ ws.length ≤ limit := by omega
  rw [diverse_selection, if_neg hni, Nat.sub_eq_zero_of_le h3, List.take_zero,
    List.append_nil]
  exact ⟨rfl, (List.perm_insertionSort scoreGE _).length_eq⟩

/-- C6 witness: two stores of three wines each with `limit = 3 < 2 * 3`;
phase 1 yields all six wines, and the result has size 6 > 3. -/
theorem selector_phase1_overflow_witness :
    (3 < wsSix.length ∧ 3 < (storesOf wsSix).length * 3
      ∧ 3 ≤ (phase1_selection wsSix 3).length
      ∧ 3 < (diverse_selection wsSix 3 3).length)
    ∧ (diverse_selection wsSix 3 3 = sortScore (phase1_selection wsSix 3)
       ∧ (diverse_selection wsSix 3 3).length = (phase1_selection wsSix 3).length) :=
  ⟨⟨by decide, by decide, by decide, by decide⟩,
    selector_phase1_overflow wsSix 3 3 (by decide) (by decide) (by decide)⟩

/-- C5 counterexample.  For the input `wsDup` (6 wines, limit 5, both store
partitions of size 3 ≥ min_per_source = 3) the claim's premises hold, yet store
`"b"` places only 2 items in the result: the id `"x"` appears in both stores,
so phase 1's `selected_ids` dedup drops store b's top wine and the remaining
copy is also excluded by id. -/
theorem selector_fairness_cex :
    5 < wsDup.length
    ∧ (∀ s ∈ storesOf wsDup, 3 ≤ (storeGroup wsDup s).length)
    ∧ "b" ∈ storesOf wsDup
    ∧ ((diverse_selection wsDup 5 3).filter (fun w => w.store == "b")).length < 3 := by
  refine ⟨by decide, by decide, by decide, by decide⟩

/-! ### Lemmas for selector fairness -/

theorem mem_addStore (acc : List String) (t s : String) :
    s ∈ addStore acc t ↔ s ∈ acc ∨ s = t := by
  rw [addStore]
  by_cases h : t ∈ acc
  · rw [if_pos h]
    constructor
    · exact Or.inl
    · rintro (hs | rfl)
      · exact hs
      · exact h
  · rw [if_neg h]
    simp [List.mem_append]

theorem storesOf_aux_mem (ws : List WineResponse) :
    ∀ (acc : List String) (s : String),
      s ∈ ws.foldl (fun acc w => addStore acc w.store) acc
        ↔ s ∈ acc ∨ s ∈ ws.map (fun w => w.store) := by
  induction ws with
  | nil => simp
  | cons w ws ih =>
      intro acc s
      rw [List.foldl_cons, ih, mem_addStore]
      simp only [List.map_cons, List.mem_cons]
      tauto

theorem mem_storesOf (ws : List WineResponse) (s : String) :
    s ∈ storesOf ws ↔ s ∈ ws.map (fun w => w.store) := by
  rw [storesOf, storesOf_aux_mem]
  simp

theorem storesOf_aux_nodup (ws : List WineResponse) :
    ∀ acc : List String, acc.Nodup →
      (ws.foldl (fun acc w => addStore acc w.store) acc).Nodup := by
  induction ws with
  | nil => exact fun acc h => h
  | cons w ws ih =>
      intro acc hacc
      rw [List.foldl_cons]
      refine ih _ ?_
      rw [addStore]
      by_cases h : w.store ∈ acc
      · rw [if_pos h]; exact hacc
      · rw [if_neg h]
        simp [List.nodup_append, hacc, h]

theorem storesOf_nodup (ws : List WineResponse) : (storesOf ws).Nodup :=
  storesOf_aux_nodup ws [] List.nodup_nil

theorem filter_partition_perm {α : Type} (p : α → Bool) (l : List α) :
    List.Perm (l.filter p ++ l.filter (fun a => !(p a))) l := by
  induction l with
  | nil => simp
  | cons a l ih =>
      by_cases h : p a
      · simp only [List.filter_cons, h, Bool.not_true, if_pos, if_neg Bool.false_ne_true,
          List.cons_append]
        exact ih.cons a
      · have h' : p a = false := by simpa using h
        simp only [List.filter_cons, h', Bool.not_false, if_pos, if_neg Bool.false_ne_true]
        exact List.perm_middle.trans (ih.cons a)

theorem partition_perm :
    ∀ (ss : List String) (l : List WineResponse), ss.Nodup →
      (∀ w ∈ l, w.store ∈ ss) →
      List.Perm ((ss.map (fun s => l.filter (fun w => w.store == s))).flatten) l := by
  intro ss
  induction ss with
  | nil =>
      intro l _ hcov
      cases l with
      | nil => simp
      | cons w l => exact absurd (hcov w (List.mem_cons_self _ _)) (List.not_mem_nil _)
  | cons s ss ih =>
      intro l hnd hcov
      simp only [List.map_cons, List.flatten_cons]
      have hrest : ∀ t ∈ ss, l.filter (fun w => w.store == t)
          = (l.filter (fun w => !(w.store == s))).filter (fun w => w.store == t) := by
        intro t ht
        rw [List.filter_filter]
        apply List.filter_congr
        intro w _
        by_cases hw : w.store = t
        · have hws : ¬ w.store = s := by
            rintro rfl
            exact (List.nodup_cons.mp hnd).1 (hw ▸ ht)
          have hts : ¬ t = s := fun h => hws (hw.trans h)
          simp [hw, hts]
        · simp [hw]
      rw [List.map_congr_left hrest]
      have hcov' : ∀ w ∈ l.filter (fun w => !(w.store == s)), w.store ∈ ss := by
        intro w hw
        have hm := List.mem_filter.mp hw
        have := hcov w hm.1
        rcases List.mem_cons.mp this with hws | hws
        · exfalso
          have h2 := hm.2
          rw [hws] at h2
          simp at h2
        · exact hws
      have hperm := ih (l.filter (fun w => !(w.store == s))) (List.nodup_cons.mp hnd).2 hcov'
      exact (hperm.append_left (l.filter (fun w => w.store == s))).trans
        (filter_partition_perm _ l)

theorem flatten_sort_perm (ss : List String) (g : String → List WineResponse) :
    List.Perm ((ss.map (fun s => sortScore (g s))).flatten) ((ss.map g).flatten) := by
  induction ss with
  | nil => exact List.Perm.refl _
  | cons s ss ih =>
      simp only [List.map_cons, List.flatten_cons]
      exact (List.perm_insertionSort _ _).append ih

theorem flatten_take_sublist (ss : List String) (g : String → List WineResponse) (k : ℕ) :
    List.Sublist ((ss.map (fun s => (g s).take k)).flatten) ((ss.map g).flatten) := by
  induction ss with
  | nil => simp
  | cons s ss ih =>
      simp only [List.map_cons, List.flatten_cons]
      exact (List.take_sublist _ _).append ih

theorem countP_flatten_ge (p : WineResponse → Bool) (k : ℕ) :
    ∀ (ss : List String) (f : String → List WineResponse) (s : String),
      s ∈ ss → k ≤ (f s).countP p → k ≤ ((ss.map f).flatten).countP p := by
  intro ss
  induction ss with
  | nil => intro f s hs; exact absurd hs (List.not_mem_nil _)
  | cons t ss ih =>
      intro f s hs hk
      simp only [List.map_cons, List.flatten_cons, List.countP_append]
      rcases List.mem_cons.mp hs with rfl | hs'
      · omega
      · have := ih f s hs' hk
        omega

/-- C5 (amended): provided all item identifiers are pairwise distinct, when
`|items| > target_count` and every store partition has at least `min_per_source`
items, the selector's result contains at least `min_per_source` items from every
store present in the input.  (Without the distinct-id proviso the property fails
— see the counterexample: a duplicated id across stores makes phase 1's
`selected_ids` dedup swallow one store's quota.) -/
theorem selector_fairness_amended (ws : List WineResponse) (limit k : ℕ)
    (hids : (ws.map (fun w => w.id)).Nodup)
    (hgt : limit < ws.length)
    (hmin : ∀ s ∈ storesOf ws, k ≤ (storeGroup ws s).length) :
    ∀ s ∈ ws.map (fun w => w.store),
      k ≤ ((diverse_selection ws limit k).filter (fun w => w.store == s)).length := by
  intro s hs
  have hsStores : s ∈ storesOf ws := (mem_storesOf ws s).mpr hs
  -- the phase-1 source list, before the (trivial) id-dedup
  set J := ((storesOf ws).map (fun t => (sortScore (storeGroup ws t)).take k)).flatten with hJ
  -- flattened sorted partitions and flattened partitions
  have hsortperm : List.Perm
      (((storesOf ws).map (fun t => sortScore (storeGroup ws t))).flatten)
      (((storesOf ws).map (fun t => storeGroup ws t)).flatten) :=
    flatten_sort_perm _ _
  have hpartperm : List.Perm
      (((storesOf ws).map (fun t => storeGroup ws t)).flatten) ws := by
    refine partition_perm _ _ (storesOf_nodup ws) ?_
    intro w hw
    rw [mem_storesOf]
    exact List.mem_map_of_mem _ hw
  have hJsub : List.Sublist J
      (((storesOf ws).map (fun t => sortScore (storeGroup ws t))).flatten) :=
    flatten_take_sublist _ _ _
  -- the ids of J are pairwise distinct
  have hJnodup : (J.map (fun w => w.id)).Nodup := by
    have h1 : List.Perm
        ((((storesOf ws).map (fun t => sortScore (storeGroup ws t))).flatten).map
          (fun w => w.id))
        (ws.map (fun w => w.id)) := (hsortperm.trans hpartperm).map _
    exact List.Nodup.sublist (hJsub.map _) (h1.nodup_iff.mpr hids)
  -- hence phase 1 performs no dedup at all
  have hphase1 : phase1_selection ws k = J := by
    rw [phase1_selection, dedupByKey, ← hJ]
    exact dedupFrom_eq_self _ J [] hJnodup (fun a _ => List.not_mem_nil _)
  -- counting items of store s in J
  have hcountJ : k ≤ J.countP (fun w => w.store == s) := by
    rw [hJ]
    refine countP_flatten_ge _ k (storesOf ws) _ s hsStores ?_
    have hall : ∀ w ∈ (sortScore (storeGroup ws s)).take k, (fun w => w.store == s) w := by
      intro w hw
      have hw1 : w ∈ sortScore (storeGroup ws s) := (List.take_sublist _ _).subset hw
      have hw2 : w ∈ storeGroup ws s := by
        rw [sortScore] at hw1
        exact ((List.perm_insertionSort scoreGE _).mem_iff).mp hw1
      rw [storeGroup] at hw2
      exact (List.mem_filter.mp hw2).2
    rw [List.countP_eq_length.mpr hall, List.length_take, sortScore,
      (List.perm_insertionSort scoreGE (storeGroup ws s)).length_eq]
    exact le_min le_rfl (hmin s hsStores)
  -- transfer the count through phase 2 and the final sort
  have hni : ¬ ws.length ≤ limit := by omega
  rw [diverse_selection, if_neg hni, ← List.countP_eq_length_filter, sortScore,
    (List.perm_insertionSort scoreGE _).countP_eq, List.countP_append, hphase1]
  have := hcountJ
  omega

/-- C5 amended witness: six wines with distinct ids over two stores of three
each, limit 5: every store keeps at least 3 items in the result. -/
theorem selector_fairness_amended_witness :
    ((wsSix.map (fun w => w.id)).Nodup ∧ 5 < wsSix.length
      ∧ (∀ s ∈ storesOf wsSix, 3 ≤ (storeGroup wsSix s).length))
    ∧ ∀ s ∈ wsSix.map (fun w => w.store),
        3 ≤ ((diverse_selection wsSix 5 3).filter (fun w => w.store == s)).length :=
  ⟨⟨by decide, by decide, by decide⟩,
    selector_fairness_amended wsSix 5 3 (by decide) (by decide) (by decide)⟩

end Pomogaika
